import Mathlib

/-!
Verification of the core logic of `voe-food-access-pgh`: the haversine
great-circle distance in miles and the nearest-candidate selection over
place records with possibly-missing coordinates, as implemented in
`src/nearest_store.py` and `src/make_map.py`.

Latitude/longitude values and distances are modelled as real numbers;
Python dictionaries with optional keys are modelled as structures with
`Option` fields; the dict mutation in `make_map.pick_nearest_place`
(`best["_straight_line_miles"] = best_dist`) is modelled by explicit
state passing: the function returns the updated list alongside the best
record.
-/

namespace VoeFood

/-- Degree-to-radian conversion, modelling Python's `math.radians`. -/
noncomputable def radians (x : ℝ) : ℝ := x * Real.pi / 180

/-- Two-argument arctangent, modelling Python's `math.atan2` on finite
inputs. -/
noncomputable def atan2 (y x : ℝ) : ℝ :=
  if 0 < x then Real.arctan (y / x)
  else if x < 0 ∧ 0 ≤ y then Real.arctan (y / x) + Real.pi
  else if x < 0 ∧ y < 0 then Real.arctan (y / x) - Real.pi
  else if x = 0 ∧ 0 < y then Real.pi / 2
  else if x = 0 ∧ y < 0 then -(Real.pi / 2)
  else 0

/-- The haversine intermediate value
`h = sin²(Δφ/2) + cos(φ1)·cos(φ2)·sin²(Δλ/2)` computed inside
`haversine_miles` (both source files compute the identical expression).
A point is a pair `(latitude, longitude)` in decimal degrees. -/
noncomputable def hav_h (a b : ℝ × ℝ) : ℝ :=
  Real.sin (radians (b.1 - a.1) / 2) ^ 2 +
    Real.cos (radians a.1) * Real.cos (radians b.1) *
      Real.sin (radians (b.2 - a.2) / 2) ^ 2

/-- Straight-line distance in miles between two latitude/longitude
points, from `haversine_miles` in `src/nearest_store.py` (line-identical
copy in `src/make_map.py`): `2 * r * atan2(sqrt(h), sqrt(1 - h))` with
`r = 3958.7613`. -/
noncomputable def haversine_miles (a b : ℝ × ℝ) : ℝ :=
  2 * 3958.7613 * atan2 (Real.sqrt (hav_h a b)) (Real.sqrt (1 - hav_h a b))

/-- The fixed origin `ORIGIN = (40.4406, -79.9959)` (downtown
Pittsburgh) shared by both source files. -/
noncomputable def ORIGIN : ℝ × ℝ := (40.4406, -79.9959)

/-- A raw place record as returned by the places-lookup collaborator:
every key may be absent.  `lat`/`lng` model
`p.get("geometry", {}).get("location", {}).get("lat"/"lng")`, and `slm`
models the `"_straight_line_miles"` key that
`make_map.pick_nearest_place` writes into the winning dict (absent on
provider input). -/
structure PlaceRecord where
  name : Option String
  vicinity : Option String
  lat : Option ℝ
  lng : Option ℝ
  slm : Option ℝ

/-- The `PlaceCandidate` dataclass of `src/nearest_store.py`,
polymorphic in the coordinate/distance scalar so that the selection scan
can be stated over any linearly ordered scalar and instantiated at `ℝ`. -/
structure PlaceCandidate (α : Type) where
  name : String
  address : String
  lat : α
  lng : α
  straight_line_miles : α

/-- The candidate built from one retained record inside
`to_candidates`: defaulted name and address, coordinates, and the
haversine distance from `origin`. -/
noncomputable def candidate_of (origin : ℝ × ℝ) (p : PlaceRecord) (la ln : ℝ) :
    PlaceCandidate ℝ :=
  { name := p.name.getD "Unknown"
    address := p.vicinity.getD "Unknown address"
    lat := la
    lng := ln
    straight_line_miles := haversine_miles origin (la, ln) }

/-- The accumulator loop of `to_candidates` in `src/nearest_store.py`:
records missing either coordinate are skipped (`continue`), the rest are
appended in order. -/
noncomputable def to_candidates_loop (origin : ℝ × ℝ)
    (acc : List (PlaceCandidate ℝ)) : List PlaceRecord → List (PlaceCandidate ℝ)
  | [] => acc
  | p :: ps =>
    match p.lat, p.lng with
    | some la, some ln => to_candidates_loop origin (acc ++ [candidate_of origin p la ln]) ps
    | some _, none => to_candidates_loop origin acc ps
    | none, _ => to_candidates_loop origin acc ps

/-- `to_candidates(origin, places)` from `src/nearest_store.py`. -/
noncomputable def to_candidates (origin : ℝ × ℝ) (places : List PlaceRecord) :
    List (PlaceCandidate ℝ) :=
  to_candidates_loop origin [] places

/-- The scan performed by Python's `min(candidates, key=lambda c:
c.straight_line_miles)`: the first element is the initial best and a
later element replaces it only under strict `<` on the key. -/
def min_scan {α : Type} [LinearOrder α] (best : PlaceCandidate α) :
    List (PlaceCandidate α) → PlaceCandidate α
  | [] => best
  | c :: cs =>
    min_scan (if c.straight_line_miles < best.straight_line_miles then c else best) cs

/-- Selection over a candidate list as in `main` of
`src/nearest_store.py`: the empty list raises (`None` here), otherwise
`min` by `straight_line_miles`. -/
def select_min {α : Type} [LinearOrder α] :
    List (PlaceCandidate α) → Option (PlaceCandidate α)
  | [] => none
  | c :: cs => some (min_scan c cs)

/-- The nearest-candidate selection of `src/nearest_store.py` (`main`,
lines 104-109): convert to candidates, raise on the empty result, else
take the minimum by straight-line distance. -/
noncomputable def select_nearest (origin : ℝ × ℝ) (places : List PlaceRecord) :
    Option (PlaceCandidate ℝ) :=
  select_min (to_candidates origin places)

/-- The scan loop of `pick_nearest_place` in `src/make_map.py`.  The
accumulator `none` models `best = None, best_dist = inf` (any real
distance beats `inf`); `some (i, p, d)` records the winning record, its
distance, and its position in the original list (the position stands for
the dict aliasing through which the Python code later mutates the list
element in place).  `i0` is the position of the head of the remaining
list. -/
noncomputable def pick_scan (origin : ℝ × ℝ) :
    Option (ℕ × PlaceRecord × ℝ) → ℕ → List PlaceRecord → Option (ℕ × PlaceRecord × ℝ)
  | best, _, [] => best
  | best, i0, p :: ps =>
    match p.lat, p.lng with
    | some la, some ln =>
      let d := haversine_miles origin (la, ln)
      let best1 :=
        match best with
        | none => some (i0, p, d)
        | some (j, q, bd) => if d < bd then some (i0, p, d) else some (j, q, bd)
      pick_scan origin best1 (i0 + 1) ps
    | some _, none => pick_scan origin best (i0 + 1) ps
    | none, _ => pick_scan origin best (i0 + 1) ps

/-- `pick_nearest_place` of `src/make_map.py` with the dict mutation
`best["_straight_line_miles"] = best_dist` made explicit: the result is
the winning record (with its `slm` key now set) paired with its
distance, together with the input list as left behind by the mutation;
`none` models the `RuntimeError` raised when no record has coordinates.
The origin is a parameter (the source reads the module constant
`ORIGIN`). -/
noncomputable def pick_nearest_place (origin : ℝ × ℝ) (places : List PlaceRecord) :
    Option ((PlaceRecord × ℝ) × List PlaceRecord) :=
  match pick_scan origin none 0 places with
  | none => none
  | some (i, p, d) =>
    some (({ p with slm := some d }, d), places.set i { p with slm := some d })

/-- The per-record conversion performed by one iteration of the
`to_candidates` loop: `none` when either coordinate is missing,
otherwise the candidate with defaulted name/address and the haversine
distance from `origin`. -/
noncomputable def candidate_of_record (origin : ℝ × ℝ) (p : PlaceRecord) :
    Option (PlaceCandidate ℝ) :=
  match p.lat, p.lng with
  | some la, some ln => some (candidate_of origin p la ln)
  | some _, none => none
  | none, _ => none

/-- A concrete place record with both coordinates present (used to
exhibit the dict mutation of `pick_nearest_place` on a concrete run). -/
noncomputable def rec0 : PlaceRecord :=
  { name := some "Store A"
    vicinity := some "123 Main St"
    lat := some 40.4406
    lng := some (-79.9959)
    slm := none }

/-- The straight-line distance computed for `rec0` from `ORIGIN`. -/
noncomputable def d0 : ℝ := haversine_miles ORIGIN (40.4406, -79.9959)

/-- One element of a Distance Matrix response row, modelling the dict
`dm["rows"][0]["elements"][0]`: the `"status"` key and the `"text"`
fields reachable under `"distance"` and `"duration"`, each possibly
absent. -/
structure DMElement where
  status : Option String
  distance_text : Option String
  duration_text : Option String

/-- One row of a Distance Matrix response: the `"elements"` key may be
absent. -/
structure DMRow where
  elements : Option (List DMElement)

/-- A Distance Matrix response: the `"rows"` key may be absent. -/
structure DMResponse where
  rows : Option (List DMRow)

/-- The element lookup
`dm.get("rows", [{}])[0].get("elements", [{}])[0]` in
`driving_metrics`: a missing key defaults to a one-element list holding
an empty dict, and `none` here models the `IndexError` raised when a
present list is empty. -/
def dmElement (dm : DMResponse) : Option DMElement :=
  match (dm.rows.getD [{ elements := none }]).get? 0 with
  | none => none
  | some row => (row.elements.getD [{ status := none, distance_text := none, duration_text := none }]).get? 0

/-- `driving_metrics` of `src/nearest_store.py` (identical logic in
`src/make_map.py`), applied to an already-fetched response: a non-`"OK"`
status yields `(None, None)`; otherwise the distance and duration texts
are read with bracket access, whose failure (`KeyError`, or the
`IndexError` from the element lookup) is the `.error` case. -/
def driving_metrics (dm : DMResponse) :
    Except String (Option String × Option String) :=
  match dmElement dm with
  | none => .error "IndexError"
  | some el =>
    if el.status = some "OK" then
      match el.distance_text, el.duration_text with
      | some dt, some tt => .ok (some dt, some tt)
      | some _, none => .error "KeyError"
      | none, _ => .error "KeyError"
    else .ok (none, none)


/-- `rec0` as left behind by `pick_nearest_place`: the
`"_straight_line_miles"` key now present. -/
noncomputable def recM : PlaceRecord := { rec0 with slm := some d0 }

/-- A concrete Distance Matrix element with a non-OK status. -/
def elW : DMElement :=
  { status := some "ZERO_RESULTS", distance_text := none, duration_text := none }

/-- A concrete Distance Matrix response wrapping `elW`. -/
def dmW : DMResponse := { rows := some [{ elements := some [elW] }] }

end VoeFood

namespace VoeFood

lemma radians_sub_eq (x y : ℝ) : radians (x - y) = radians x - radians y := by
  unfold radians; ring

lemma radians_neg_sub (x y : ℝ) : radians (x - y) = -(radians (y - x)) := by
  unfold radians; ring

/-- The haversine intermediate value rewritten through the spherical law
of cosines: `h = (1 - cos c) / 2` where
`cos c = sin φ1 sin φ2 + cos φ1 cos φ2 cos Δλ`. -/
lemma hav_h_eq (a b : ℝ × ℝ) :
    hav_h a b =
      (1 - (Real.sin (radians a.1) * Real.sin (radians b.1) +
        Real.cos (radians a.1) * Real.cos (radians b.1) *
          Real.cos (radians (b.2 - a.2)))) / 2 := by
  unfold hav_h
  rw [radians_sub_eq b.1 a.1, Real.sin_sq_eq_half_sub, Real.sin_sq_eq_half_sub,
    show 2 * ((radians b.1 - radians a.1) / 2) = radians b.1 - radians a.1 by ring,
    show 2 * (radians (b.2 - a.2) / 2) = radians (b.2 - a.2) by ring,
    Real.cos_sub]
  ring

lemma hav_h_bounds (a b : ℝ × ℝ) : 0 ≤ hav_h a b ∧ hav_h a b ≤ 1 := by
  rw [hav_h_eq]
  set s1 := Real.sin (radians a.1) with hs1
  set s2 := Real.sin (radians b.1) with hs2
  set c1 := Real.cos (radians a.1) with hc1
  set c2 := Real.cos (radians b.1) with hc2
  set c := Real.cos (radians (b.2 - a.2)) with hc
  have p1 : s1 ^ 2 + c1 ^ 2 = 1 := Real.sin_sq_add_cos_sq _
  have p2 : s2 ^ 2 + c2 ^ 2 = 1 := Real.sin_sq_add_cos_sq _
  have hcl : -1 ≤ c := Real.neg_one_le_cos _
  have hcu : c ≤ 1 := Real.cos_le_one _
  have hA : s1 * s2 + c1 * c2 ≤ 1 := by
    nlinarith [sq_nonneg (s1 - s2), sq_nonneg (c1 - c2)]
  have hB : s1 * s2 - c1 * c2 ≤ 1 := by
    nlinarith [sq_nonneg (s1 - s2), sq_nonneg (c1 + c2)]
  have hA2 : -1 ≤ s1 * s2 + c1 * c2 := by
    nlinarith [sq_nonneg (s1 + s2), sq_nonneg (c1 + c2)]
  have hB2 : -1 ≤ s1 * s2 - c1 * c2 := by
    nlinarith [sq_nonneg (s1 + s2), sq_nonneg (c1 - c2)]
  constructor
  · have hup : s1 * s2 + c1 * c2 * c ≤ 1 := by
      nlinarith [mul_nonneg (by linarith : (0:ℝ) ≤ 1 + c)
          (by linarith : (0:ℝ) ≤ 1 - (s1 * s2 + c1 * c2)),
        mul_nonneg (by linarith : (0:ℝ) ≤ 1 - c)
          (by linarith : (0:ℝ) ≤ 1 - (s1 * s2 - c1 * c2))]
    linarith
  · have hlo : -1 ≤ s1 * s2 + c1 * c2 * c := by
      nlinarith [mul_nonneg (by linarith : (0:ℝ) ≤ 1 + c)
          (by linarith : (0:ℝ) ≤ 1 + (s1 * s2 + c1 * c2)),
        mul_nonneg (by linarith : (0:ℝ) ≤ 1 - c)
          (by linarith : (0:ℝ) ≤ 1 + (s1 * s2 - c1 * c2))]
    linarith

lemma atan2_nonneg {y x : ℝ} (hy : 0 ≤ y) (hx : 0 ≤ x) : 0 ≤ atan2 y x := by
  unfold atan2
  split_ifs with h1 h2 h3 h4 h5
  · have h0 : Real.arctan 0 ≤ Real.arctan (y / x) :=
      Real.arctan_strictMono.monotone (div_nonneg hy h1.le)
    simpa [Real.arctan_zero] using h0
  · exact absurd h2.1 (not_lt.mpr hx)
  · exact absurd h3.1 (not_lt.mpr hx)
  · linarith [Real.pi_pos]
  · exact absurd h5.2 (not_lt.mpr hy)
  · exact le_refl 0

lemma atan2_zero_one : atan2 0 1 = 0 := by
  unfold atan2
  rw [if_pos (by norm_num : (0:ℝ) < 1)]
  norm_num [Real.arctan_zero]

lemma haversine_nonneg (a b : ℝ × ℝ) : 0 ≤ haversine_miles a b := by
  unfold haversine_miles
  have hb := hav_h_bounds a b
  have h := atan2_nonneg (Real.sqrt_nonneg (hav_h a b)) (Real.sqrt_nonneg (1 - hav_h a b))
  have h2 : (0:ℝ) ≤ 2 * 3958.7613 := by norm_num
  exact mul_nonneg h2 h

lemma hav_h_self (a : ℝ × ℝ) : hav_h a a = 0 := by
  simp [hav_h, radians]

lemma haversine_of_h_zero {a b : ℝ × ℝ} (h : hav_h a b = 0) :
    haversine_miles a b = 0 := by
  unfold haversine_miles
  rw [h]
  norm_num [Real.sqrt_zero, Real.sqrt_one, atan2_zero_one]

lemma haversine_self (a : ℝ × ℝ) : haversine_miles a a = 0 :=
  haversine_of_h_zero (hav_h_self a)

lemma hav_h_comm (a b : ℝ × ℝ) : hav_h a b = hav_h b a := by
  unfold hav_h
  have h1 : Real.sin (radians (a.1 - b.1) / 2) ^ 2 =
      Real.sin (radians (b.1 - a.1) / 2) ^ 2 := by
    rw [radians_neg_sub a.1 b.1, neg_div, Real.sin_neg]
    ring
  have h2 : Real.sin (radians (a.2 - b.2) / 2) ^ 2 =
      Real.sin (radians (b.2 - a.2) / 2) ^ 2 := by
    rw [radians_neg_sub a.2 b.2, neg_div, Real.sin_neg]
    ring
  rw [h1, h2]
  ring

/-- C2: for every pair of points, `haversine_miles` computes exactly
`2 * R * atan2(sqrt(h), sqrt(1 - h))` with
`h = sin²(Δφ/2) + cos(φ1)·cos(φ2)·sin²(Δλ/2)`, angles converted by
`radians`, and `R = 3958.7613` miles. -/
theorem C2_haversine_formula (a b : ℝ × ℝ) :
    haversine_miles a b =
      2 * 3958.7613 *
        atan2
          (Real.sqrt (Real.sin (radians (b.1 - a.1) / 2) ^ 2 +
            Real.cos (radians a.1) * Real.cos (radians b.1) *
              Real.sin (radians (b.2 - a.2) / 2) ^ 2))
          (Real.sqrt (1 - (Real.sin (radians (b.1 - a.1) / 2) ^ 2 +
            Real.cos (radians a.1) * Real.cos (radians b.1) *
              Real.sin (radians (b.2 - a.2) / 2) ^ 2))) := rfl

/-- C5: `haversine_miles` is total on all (finite) real coordinate
pairs: the intermediate value `h` always lies in `[0, 1]`, so both
square roots receive non-negative arguments. -/
theorem C5_haversine_total (a b : ℝ × ℝ) :
    0 ≤ hav_h a b ∧ hav_h a b ≤ 1 ∧ 0 ≤ 1 - hav_h a b := by
  obtain ⟨h0, h1⟩ := hav_h_bounds a b
  exact ⟨h0, h1, by linarith⟩

/-- C6 (counterexample): the distance is exactly zero at the two
distinct coordinate pairs `(90, 0)` and `(90, 10)` (both at the north
pole), so "zero only if the coordinate pairs are identical" fails. -/
theorem C6_counterexample :
    haversine_miles (90, 0) (90, 10) = 0 ∧
      ((90 : ℝ), (0 : ℝ)) ≠ ((90 : ℝ), (10 : ℝ)) := by
  constructor
  · apply haversine_of_h_zero
    unfold hav_h
    have h90 : radians 90 = Real.pi / 2 := by unfold radians; ring
    simp only [Prod.fst, Prod.snd]
    rw [show (90:ℝ) - 90 = 0 by norm_num, show radians 0 = 0 by unfold radians; ring,
      h90, Real.cos_pi_div_two]
    simp
  · intro h
    have := congrArg Prod.snd h
    norm_num at this

/-- C6 (amended): `haversine_miles` is non-negative for every pair of
points and is zero on every identical pair; zero at distinct coordinate
pairs is possible (see the counterexample), so only this direction
holds. -/
theorem C6_nonneg_and_zero_on_diagonal (a b : ℝ × ℝ) :
    0 ≤ haversine_miles a b ∧ haversine_miles a a = 0 :=
  ⟨haversine_nonneg a b, haversine_self a⟩

/-- C7: `haversine_miles` is symmetric in its two arguments. -/
theorem C7_haversine_symm (a b : ℝ × ℝ) :
    haversine_miles a b = haversine_miles b a := by
  unfold haversine_miles
  rw [hav_h_comm]

end VoeFood

namespace VoeFood

lemma to_candidates_loop_eq (origin : ℝ × ℝ) :
    ∀ (ps : List PlaceRecord) (acc : List (PlaceCandidate ℝ)),
      to_candidates_loop origin acc ps =
        acc ++ ps.filterMap (candidate_of_record origin) := by
  intro ps
  induction ps with
  | nil => intro acc; simp [to_candidates_loop]
  | cons p ps ih =>
    intro acc
    cases hla : p.lat with
    | none =>
      simp only [to_candidates_loop, hla, List.filterMap_cons, candidate_of_record]
      exact ih acc
    | some la =>
      cases hln : p.lng with
      | none =>
        simp only [to_candidates_loop, hla, hln, List.filterMap_cons, candidate_of_record]
        exact ih acc
      | some ln =>
        simp only [to_candidates_loop, hla, hln, List.filterMap_cons, candidate_of_record]
        rw [ih]
        simp

/-- C3: the conversion to candidates keeps exactly the records with
both coordinates present, in input order, dropping the rest without
error; each kept record yields the candidate with name defaulted to
"Unknown", address defaulted to "Unknown address", and straight-line
distance `haversine_miles origin (lat, lng)`. -/
theorem C3_to_candidates_conversion (origin : ℝ × ℝ) (places : List PlaceRecord) :
    to_candidates origin places =
      places.filterMap (fun p =>
        match p.lat, p.lng with
        | some la, some ln =>
          some { name := p.name.getD "Unknown"
                 address := p.vicinity.getD "Unknown address"
                 lat := la
                 lng := ln
                 straight_line_miles := haversine_miles origin (la, ln) }
        | some _, none => none
        | none, _ => none)
    := by
  rw [to_candidates, to_candidates_loop_eq origin places []]
  rfl

lemma min_scan_cons {α : Type} [LinearOrder α] (c x : PlaceCandidate α)
    (xs : List (PlaceCandidate α)) :
    min_scan c (x :: xs) =
      min_scan (if x.straight_line_miles < c.straight_line_miles then x else c) xs := rfl

lemma min_scan_le {α : Type} [LinearOrder α] :
    ∀ (cs : List (PlaceCandidate α)) (c : PlaceCandidate α),
      ∀ d ∈ c :: cs, (min_scan c cs).straight_line_miles ≤ d.straight_line_miles := by
  intro cs
  induction cs with
  | nil =>
    intro c d hd
    rw [List.mem_singleton] at hd
    subst hd
    exact le_of_eq rfl
  | cons x xs ih =>
    intro c d hd
    rw [min_scan_cons]
    set c1 := if x.straight_line_miles < c.straight_line_miles then x else c with hc1
    have hmin := ih c1 c1 (List.mem_cons_self c1 xs)
    have hcc : c1.straight_line_miles ≤ c.straight_line_miles := by
      rw [hc1]; split_ifs with hx
      · exact le_of_lt hx
      · exact le_refl _
    have hcx : c1.straight_line_miles ≤ x.straight_line_miles := by
      rw [hc1]; split_ifs with hx
      · exact le_refl _
      · exact le_of_not_lt hx
    simp only [List.mem_cons] at hd
    rcases hd with rfl | rfl | hd
    · exact hmin.trans hcc
    · exact hmin.trans hcx
    · exact ih c1 d (List.mem_cons_of_mem c1 hd)


lemma min_scan_first {α : Type} [LinearOrder α] :
    ∀ (cs : List (PlaceCandidate α)) (c : PlaceCandidate α),
      ∃ i, (c :: cs).get? i = some (min_scan c cs) ∧
        ∀ j d, j < i → (c :: cs).get? j = some d →
          (min_scan c cs).straight_line_miles < d.straight_line_miles := by
  intro cs
  induction cs with
  | nil =>
    intro c
    exact ⟨0, rfl, fun j d hj _ => absurd hj (Nat.not_lt_zero j)⟩
  | cons x xs ih =>
    intro c
    rw [min_scan_cons]
    set c1 := if x.straight_line_miles < c.straight_line_miles then x else c with hc1
    obtain ⟨i, hi, hstrict⟩ := ih c1
    by_cases hx : x.straight_line_miles < c.straight_line_miles
    · have he1 : c1 = x := by rw [hc1, if_pos hx]
      cases i with
      | zero =>
        have hm : min_scan c1 xs = c1 := by
          have hi0 : some c1 = some (min_scan c1 xs) := hi
          exact (Option.some.inj hi0).symm
        refine ⟨1, ?_, ?_⟩
        · show some x = some (min_scan c1 xs)
          rw [hm, he1]
        · intro j d hj hd
          have hj0 : j = 0 := by omega
          subst hj0
          have hd0 : some c = some d := hd
          have hdc : d = c := (Option.some.inj hd0).symm
          subst hdc
          rw [hm, he1]
          exact hx
      | succ k =>
        have hm1 : (min_scan c1 xs).straight_line_miles < c1.straight_line_miles :=
          hstrict 0 c1 (Nat.succ_pos k) rfl
        refine ⟨k + 2, ?_, ?_⟩
        · exact hi
        · intro j d hj hd
          cases j with
          | zero =>
            have hd0 : some c = some d := hd
            have hdc : d = c := (Option.some.inj hd0).symm
            subst hdc
            exact lt_trans (he1 ▸ hm1) hx
          | succ j1 =>
            cases j1 with
            | zero =>
              have hd0 : some x = some d := hd
              have hdx : d = x := (Option.some.inj hd0).symm
              subst hdx
              exact he1 ▸ hm1
            | succ j2 =>
              have hd2 : xs.get? j2 = some d := hd
              exact hstrict (j2 + 1) d (by omega) hd2
    · have he1 : c1 = c := by rw [hc1, if_neg hx]
      cases i with
      | zero =>
        have hm : min_scan c1 xs = c1 := by
          have hi0 : some c1 = some (min_scan c1 xs) := hi
          exact (Option.some.inj hi0).symm
        refine ⟨0, ?_, ?_⟩
        · show some c = some (min_scan c1 xs)
          rw [hm, he1]
        · intro j d hj hd
          exact absurd hj (Nat.not_lt_zero j)
      | succ k =>
        have hm1 : (min_scan c1 xs).straight_line_miles < c1.straight_line_miles :=
          hstrict 0 c1 (Nat.succ_pos k) rfl
        refine ⟨k + 2, ?_, ?_⟩
        · exact hi
        · intro j d hj hd
          cases j with
          | zero =>
            have hd0 : some c = some d := hd
            have hdc : d = c := (Option.some.inj hd0).symm
            subst hdc
            exact he1 ▸ hm1
          | succ j1 =>
            cases j1 with
            | zero =>
              have hd0 : some x = some d := hd
              have hdx : d = x := (Option.some.inj hd0).symm
              subst hdx
              exact lt_of_lt_of_le (he1 ▸ hm1) (le_of_not_lt hx)
            | succ j2 =>
              have hd2 : xs.get? j2 = some d := hd
              exact hstrict (j2 + 1) d (by omega) hd2

/-- C1: over any non-empty candidate list `c :: cs`, the `min`-scan by
`straight_line_miles` returns a candidate whose distance is a lower
bound of every candidate's distance, and the result sits at a position
every earlier position of which holds a strictly greater distance — so
on exact ties the first-encountered candidate wins (the scan replaces
only on strict `<`). -/
theorem C1_min_scan_least_and_first {α : Type} [LinearOrder α]
    (c : PlaceCandidate α) (cs : List (PlaceCandidate α)) :
    (∀ d ∈ c :: cs,
        (min_scan c cs).straight_line_miles ≤ d.straight_line_miles) ∧
      ∃ i, (c :: cs).get? i = some (min_scan c cs) ∧
        ∀ j d, j < i → (c :: cs).get? j = some d →
          (min_scan c cs).straight_line_miles < d.straight_line_miles :=
  ⟨min_scan_le cs c, min_scan_first cs c⟩

end VoeFood

namespace VoeFood

lemma candidate_of_record_eq_none (origin : ℝ × ℝ) (p : PlaceRecord) :
    candidate_of_record origin p = none ↔ (p.lat = none ∨ p.lng = none) := by
  cases hla : p.lat with
  | none => simp [candidate_of_record, hla]
  | some la =>
    cases hln : p.lng with
    | none => simp [candidate_of_record, hla, hln]
    | some ln => simp [candidate_of_record, hla, hln]

lemma pick_scan_isSome (origin : ℝ × ℝ) :
    ∀ (places : List PlaceRecord) (st : ℕ × PlaceRecord × ℝ) (i0 : ℕ),
      ∃ out, pick_scan origin (some st) i0 places = some out := by
  intro places
  induction places with
  | nil => intro st i0; exact ⟨st, rfl⟩
  | cons p ps ih =>
    intro st i0
    cases hla : p.lat with
    | none => simpa [pick_scan, hla] using ih st (i0 + 1)
    | some la =>
      cases hln : p.lng with
      | none => simpa [pick_scan, hla, hln] using ih st (i0 + 1)
      | some ln =>
        obtain ⟨j, q, bd⟩ := st
        simp only [pick_scan, hla, hln]
        by_cases hlt : haversine_miles origin (la, ln) < bd
        · rw [if_pos hlt]
          exact ih (i0, p, haversine_miles origin (la, ln)) (i0 + 1)
        · rw [if_neg hlt]
          exact ih (j, q, bd) (i0 + 1)

lemma pick_scan_none_iff (origin : ℝ × ℝ) :
    ∀ (places : List PlaceRecord) (i0 : ℕ),
      (pick_scan origin none i0 places = none ↔
        ∀ p ∈ places, p.lat = none ∨ p.lng = none) := by
  intro places
  induction places with
  | nil => intro i0; simp [pick_scan]
  | cons p ps ih =>
    intro i0
    cases hla : p.lat with
    | none =>
      simp only [pick_scan, hla]
      rw [ih (i0 + 1)]
      constructor
      · intro h q hq
        rcases List.mem_cons.mp hq with rfl | hq2
        · exact Or.inl hla
        · exact h q hq2
      · intro h q hq
        exact h q (List.mem_cons_of_mem p hq)
    | some la =>
      cases hln : p.lng with
      | none =>
        simp only [pick_scan, hla, hln]
        rw [ih (i0 + 1)]
        constructor
        · intro h q hq
          rcases List.mem_cons.mp hq with rfl | hq2
          · exact Or.inr hln
          · exact h q hq2
        · intro h q hq
          exact h q (List.mem_cons_of_mem p hq)
      | some ln =>
        simp only [pick_scan, hla, hln]
        obtain ⟨out, hout⟩ :=
          pick_scan_isSome origin ps (i0, p, haversine_miles origin (la, ln)) (i0 + 1)
        rw [hout]
        refine iff_of_false (fun h => Option.noConfusion h) (fun h => ?_)
        rcases h p (List.mem_cons_self p ps) with h1 | h1
        · rw [hla] at h1; exact Option.noConfusion h1
        · rw [hln] at h1; exact Option.noConfusion h1

/-- C4: both selection implementations signal the empty-result error
exactly when the input list is empty or every record lacks a usable
coordinate: `select_nearest` (the `nearest_store.py` path) and
`pick_nearest_place` (the `make_map.py` path) return `none` iff every
record is missing its latitude or its longitude, and return a result in
every other case. -/
theorem C4_empty_result_iff (origin : ℝ × ℝ) (places : List PlaceRecord) :
    (select_nearest origin places = none ↔
        ∀ p ∈ places, p.lat = none ∨ p.lng = none) ∧
      (pick_nearest_place origin places = none ↔
        ∀ p ∈ places, p.lat = none ∨ p.lng = none) := by
  constructor
  · unfold select_nearest
    rw [to_candidates, to_candidates_loop_eq origin places []]
    simp only [List.nil_append]
    constructor
    · intro h
      cases hfm : places.filterMap (candidate_of_record origin) with
      | nil =>
        rw [List.filterMap_eq_nil_iff] at hfm
        intro p hp
        exact (candidate_of_record_eq_none origin p).mp (hfm p hp)
      | cons c cs =>
        rw [hfm] at h
        exact Option.noConfusion h
    · intro h
      have hfm : places.filterMap (candidate_of_record origin) = [] := by
        rw [List.filterMap_eq_nil_iff]
        intro p hp
        exact (candidate_of_record_eq_none origin p).mpr (h p hp)
      rw [hfm]
      rfl
  · constructor
    · intro h
      cases hps : pick_scan origin none 0 places with
      | none => exact (pick_scan_none_iff origin places 0).mp hps
      | some t =>
        obtain ⟨i, p, d⟩ := t
        rw [pick_nearest_place, hps] at h
        exact Option.noConfusion h
    · intro h
      have hps := (pick_scan_none_iff origin places 0).mpr h
      rw [pick_nearest_place, hps]

end VoeFood

namespace VoeFood

/-- C9: for a routing response whose element lookup succeeds,
`driving_metrics` returns `(None, None)` exactly when the element's
status is not `"OK"`; when the status is `"OK"` and the texts are
present it returns them; and a non-OK status is never surfaced as an
error. -/
theorem C9_driving_metrics (dm : DMResponse) (el : DMElement)
    (h1 : dmElement dm = some el) :
    (driving_metrics dm = .ok (none, none) ↔ ¬(el.status = some "OK")) ∧
      (∀ dt tt, el.distance_text = some dt → el.duration_text = some tt →
        el.status = some "OK" → driving_metrics dm = .ok (some dt, some tt)) ∧
      (¬(el.status = some "OK") → ∀ e, driving_metrics dm ≠ .error e) := by
  refine ⟨?_, ?_, ?_⟩
  · simp only [driving_metrics, h1]
    by_cases hst : el.status = some "OK"
    · rw [if_pos hst]
      refine iff_of_false ?_ (fun hn => hn hst)
      cases hdt : el.distance_text with
      | none => simp
      | some dt =>
        cases htt : el.duration_text with
        | none => simp
        | some tt => simp
    · rw [if_neg hst]
      exact iff_of_true rfl hst
  · intro dt tt hdt htt hstt
    simp [driving_metrics, h1, hdt, htt, hstt]
  · intro hn e
    simp only [driving_metrics, h1]
    rw [if_neg hn]
    simp

/-- C9 witness: the theorem instantiated at the concrete response `dmW`
whose single element has status `"ZERO_RESULTS"`. -/
theorem C9_driving_metrics_witness :
    dmElement dmW = some elW ∧
      ((driving_metrics dmW = .ok (none, none) ↔ ¬(elW.status = some "OK")) ∧
        (∀ dt tt, elW.distance_text = some dt → elW.duration_text = some tt →
          elW.status = some "OK" → driving_metrics dmW = .ok (some dt, some tt)) ∧
        (¬(elW.status = some "OK") → ∀ e, driving_metrics dmW ≠ .error e)) :=
  ⟨rfl, C9_driving_metrics dmW elW rfl⟩

end VoeFood

namespace VoeFood

lemma pick_scan_get (origin : ℝ × ℝ) :
    ∀ (places : List PlaceRecord) (st : Option (ℕ × PlaceRecord × ℝ)) (i0 : ℕ)
      (j : ℕ) (q : PlaceRecord) (bd : ℝ),
      pick_scan origin st i0 places = some (j, q, bd) →
      st = some (j, q, bd) ∨
        (i0 ≤ j ∧ places.get? (j - i0) = some q ∧
          ∃ la ln, q.lat = some la ∧ q.lng = some ln ∧
            bd = haversine_miles origin (la, ln)) := by
  intro places
  induction places with
  | nil => intro st i0 j q bd h; exact Or.inl h
  | cons p ps ih =>
    intro st i0 j q bd h
    have hshift :
        (i0 + 1 ≤ j ∧ ps.get? (j - (i0 + 1)) = some q ∧
          ∃ la ln, q.lat = some la ∧ q.lng = some ln ∧
            bd = haversine_miles origin (la, ln)) →
        (i0 ≤ j ∧ (p :: ps).get? (j - i0) = some q ∧
          ∃ la ln, q.lat = some la ∧ q.lng = some ln ∧
            bd = haversine_miles origin (la, ln)) := by
      rintro ⟨h2a, h2b, h2c⟩
      refine ⟨by omega, ?_, h2c⟩
      have hj : j - i0 = (j - (i0 + 1)) + 1 := by omega
      rw [hj, List.get?_cons_succ]
      exact h2b
    cases hla : p.lat with
    | none =>
      rw [show pick_scan origin st i0 (p :: ps) = pick_scan origin st (i0 + 1) ps from by
        simp [pick_scan, hla]] at h
      rcases ih st (i0 + 1) j q bd h with h1 | h2
      · exact Or.inl h1
      · exact Or.inr (hshift h2)
    | some la =>
      cases hln : p.lng with
      | none =>
        rw [show pick_scan origin st i0 (p :: ps) = pick_scan origin st (i0 + 1) ps from by
          simp [pick_scan, hla, hln]] at h
        rcases ih st (i0 + 1) j q bd h with h1 | h2
        · exact Or.inl h1
        · exact Or.inr (hshift h2)
      | some ln =>
        cases st with
        | none =>
          rw [show pick_scan origin none i0 (p :: ps) =
              pick_scan origin (some (i0, p, haversine_miles origin (la, ln))) (i0 + 1) ps from by
            simp [pick_scan, hla, hln]] at h
          rcases ih _ (i0 + 1) j q bd h with h1 | h2
          · have h1' := Option.some.inj h1
            have hji : i0 = j := congrArg (fun t => t.1) h1'
            have hqp : p = q := congrArg (fun t => t.2.1) h1'
            have hbd : haversine_miles origin (la, ln) = bd := congrArg (fun t => t.2.2) h1'
            subst hji; subst hqp; subst hbd
            refine Or.inr ⟨le_refl i0, ?_, la, ln, hla, hln, rfl⟩
            rw [Nat.sub_self]
            rfl
          · exact Or.inr (hshift h2)
        | some st0 =>
          obtain ⟨j0, q0, bd0⟩ := st0
          by_cases hlt : haversine_miles origin (la, ln) < bd0
          · rw [show pick_scan origin (some (j0, q0, bd0)) i0 (p :: ps) =
                pick_scan origin (some (i0, p, haversine_miles origin (la, ln))) (i0 + 1) ps from by
              simp [pick_scan, hla, hln, hlt]] at h
            rcases ih _ (i0 + 1) j q bd h with h1 | h2
            · have h1' := Option.some.inj h1
              have hji : i0 = j := congrArg (fun t => t.1) h1'
              have hqp : p = q := congrArg (fun t => t.2.1) h1'
              have hbd : haversine_miles origin (la, ln) = bd := congrArg (fun t => t.2.2) h1'
              subst hji; subst hqp; subst hbd
              refine Or.inr ⟨le_refl i0, ?_, la, ln, hla, hln, rfl⟩
              rw [Nat.sub_self]
              rfl
            · exact Or.inr (hshift h2)
          · rw [show pick_scan origin (some (j0, q0, bd0)) i0 (p :: ps) =
                pick_scan origin (some (j0, q0, bd0)) (i0 + 1) ps from by
              simp [pick_scan, hla, hln, hlt]] at h
            rcases ih _ (i0 + 1) j q bd h with h1 | h2
            · exact Or.inl h1
            · exact Or.inr (hshift h2)

lemma pick_scan_rec0 : pick_scan ORIGIN none 0 [rec0] = some (0, rec0, d0) := by
  simp [pick_scan, rec0, d0]

lemma pick_nearest_place_rec0 :
    pick_nearest_place ORIGIN [rec0] = some ((recM, d0), [recM]) := by
  rw [pick_nearest_place, pick_scan_rec0]
  rfl

/-- C8 (counterexample): on the one-record list `[rec0]`,
`pick_nearest_place` of `make_map.py` hands back an input list whose
record has gained the `"_straight_line_miles"` key, so the input records
are not left unchanged. -/
theorem C8_counterexample :
    (pick_nearest_place ORIGIN [rec0]).map (fun r => r.2) ≠ some [rec0] := by
  rw [pick_nearest_place_rec0]
  simp [recM, rec0]

/-- C8 (amended): `make_map.pick_nearest_place` mutates exactly the
selected record and only its `"_straight_line_miles"` key: whenever it
returns, the returned list agrees with the input everywhere except at
the winning index, where the record keeps its name, address and
coordinates and only gains the distance entry.  (The `nearest_store.py`
selection path builds fresh candidates and leaves the record list
untouched by construction.) -/
theorem C8_pick_mutation_frame (origin : ℝ × ℝ) (places : List PlaceRecord)
    (best : PlaceRecord × ℝ) (out : List PlaceRecord)
    (h : pick_nearest_place origin places = some (best, out)) :
    ∃ i p, places.get? i = some p ∧
      best.1 = { p with slm := some best.2 } ∧
      out = places.set i { p with slm := some best.2 } ∧
      (∀ j, j ≠ i → out.get? j = places.get? j) ∧
      best.1.name = p.name ∧ best.1.vicinity = p.vicinity ∧
      best.1.lat = p.lat ∧ best.1.lng = p.lng := by
  cases hps : pick_scan origin none 0 places with
  | none =>
    rw [pick_nearest_place, hps] at h
    exact Option.noConfusion h
  | some t =>
    obtain ⟨i, p, d⟩ := t
    rw [pick_nearest_place, hps] at h
    have h' := Option.some.inj h
    have hbest : best = ({ p with slm := some d }, d) := (congrArg (fun t => t.1) h').symm
    have hout : out = places.set i { p with slm := some d} := (congrArg (fun t => t.2) h').symm
    rcases pick_scan_get origin places none 0 i p d hps with h1 | ⟨_, hget, _⟩
    · exact Option.noConfusion h1
    · rw [Nat.sub_zero] at hget
      refine ⟨i, p, hget, ?_, ?_, ?_, ?_, ?_, ?_, ?_⟩
      · rw [hbest]
      · rw [hout, hbest]
      · intro j hj
        rw [hout]
        rw [List.get?_eq_getElem?, List.get?_eq_getElem?, List.getElem?_set_ne (Ne.symm hj)]
      · rw [hbest]
      · rw [hbest]
      · rw [hbest]
      · rw [hbest]

/-- C8 witness: the frame theorem applied to the concrete run of
`pick_nearest_place` on `[rec0]`. -/
theorem C8_pick_mutation_frame_witness :
    pick_nearest_place ORIGIN [rec0] = some ((recM, d0), [recM]) ∧
      ∃ i p, [rec0].get? i = some p ∧
        (recM, d0).1 = { p with slm := some (recM, d0).2 } ∧
        [recM] = [rec0].set i { p with slm := some (recM, d0).2 } ∧
        (∀ j, j ≠ i → [recM].get? j = [rec0].get? j) ∧
        (recM, d0).1.name = p.name ∧ (recM, d0).1.vicinity = p.vicinity ∧
        (recM, d0).1.lat = p.lat ∧ (recM, d0).1.lng = p.lng :=
  ⟨pick_nearest_place_rec0,
    C8_pick_mutation_frame ORIGIN [rec0] (recM, d0) [recM] pick_nearest_place_rec0⟩

end VoeFood

namespace VoeFood

lemma to_candidates_cons_invalid (origin : ℝ × ℝ) (p : PlaceRecord)
    (ps : List PlaceRecord) (h : p.lat = none ∨ p.lng = none) :
    to_candidates origin (p :: ps) = to_candidates origin ps := by
  rw [to_candidates, to_candidates, to_candidates_loop_eq, to_candidates_loop_eq]
  rw [List.filterMap_cons, (candidate_of_record_eq_none origin p).mpr h]

lemma to_candidates_cons_valid (origin : ℝ × ℝ) (p : PlaceRecord)
    (ps : List PlaceRecord) (la ln : ℝ) (hla : p.lat = some la) (hln : p.lng = some ln) :
    to_candidates origin (p :: ps) =
      candidate_of origin p la ln :: to_candidates origin ps := by
  rw [to_candidates, to_candidates, to_candidates_loop_eq, to_candidates_loop_eq]
  rw [List.filterMap_cons, show candidate_of_record origin p = some (candidate_of origin p la ln) from by
    simp [candidate_of_record, hla, hln]]
  simp

lemma sim_run (origin : ℝ × ℝ) :
    ∀ (places : List PlaceRecord) (i0 j : ℕ) (q : PlaceRecord) (bd : ℝ)
      (c : PlaceCandidate ℝ),
      (∃ la0 ln0, q.lat = some la0 ∧ q.lng = some ln0 ∧
        bd = haversine_miles origin (la0, ln0) ∧ c = candidate_of origin q la0 ln0) →
      ∃ j' q' bd' la' ln',
        pick_scan origin (some (j, q, bd)) i0 places = some (j', q', bd') ∧
        q'.lat = some la' ∧ q'.lng = some ln' ∧
        bd' = haversine_miles origin (la', ln') ∧
        min_scan c (to_candidates origin places) = candidate_of origin q' la' ln' := by
  intro places
  induction places with
  | nil =>
    rintro i0 j q bd c ⟨la0, ln0, hla0, hln0, hbd0, hc0⟩
    exact ⟨j, q, bd, la0, ln0, rfl, hla0, hln0, hbd0, hc0⟩
  | cons p ps ih =>
    rintro i0 j q bd c ⟨la0, ln0, hla0, hln0, hbd0, hc0⟩
    have hcs : c.straight_line_miles = bd := by
      rw [hc0]
      exact hbd0.symm
    cases hla : p.lat with
    | none =>
      rw [show pick_scan origin (some (j, q, bd)) i0 (p :: ps) =
          pick_scan origin (some (j, q, bd)) (i0 + 1) ps from by
        simp [pick_scan, hla]]
      rw [to_candidates_cons_invalid origin p ps (Or.inl hla)]
      exact ih (i0 + 1) j q bd c ⟨la0, ln0, hla0, hln0, hbd0, hc0⟩
    | some la =>
      cases hln : p.lng with
      | none =>
        rw [show pick_scan origin (some (j, q, bd)) i0 (p :: ps) =
            pick_scan origin (some (j, q, bd)) (i0 + 1) ps from by
          simp [pick_scan, hla, hln]]
        rw [to_candidates_cons_invalid origin p ps (Or.inr hln)]
        exact ih (i0 + 1) j q bd c ⟨la0, ln0, hla0, hln0, hbd0, hc0⟩
      | some ln =>
        rw [to_candidates_cons_valid origin p ps la ln hla hln, min_scan_cons]
        have hps : (candidate_of origin p la ln).straight_line_miles =
            haversine_miles origin (la, ln) := rfl
        by_cases hlt : haversine_miles origin (la, ln) < bd
        · rw [show pick_scan origin (some (j, q, bd)) i0 (p :: ps) =
              pick_scan origin (some (i0, p, haversine_miles origin (la, ln))) (i0 + 1) ps from by
            simp [pick_scan, hla, hln, hlt]]
          have hltc : (candidate_of origin p la ln).straight_line_miles <
              c.straight_line_miles := by
            rw [hps, hcs]
            exact hlt
          rw [if_pos hltc]
          exact ih (i0 + 1) i0 p (haversine_miles origin (la, ln))
            (candidate_of origin p la ln) ⟨la, ln, hla, hln, rfl, rfl⟩
        · rw [show pick_scan origin (some (j, q, bd)) i0 (p :: ps) =
              pick_scan origin (some (j, q, bd)) (i0 + 1) ps from by
            simp [pick_scan, hla, hln, hlt]]
          have hltc : ¬((candidate_of origin p la ln).straight_line_miles <
              c.straight_line_miles) := by
            rw [hps, hcs]
            exact hlt
          rw [if_neg hltc]
          exact ih (i0 + 1) j q bd c ⟨la0, ln0, hla0, hln0, hbd0, hc0⟩

lemma select_pick_equiv (origin : ℝ × ℝ) :
    ∀ (places : List PlaceRecord) (i0 : ℕ),
      (∃ p ∈ places, p.lat ≠ none ∧ p.lng ≠ none) →
      ∃ j' q' bd' la' ln',
        pick_scan origin none i0 places = some (j', q', bd') ∧
        q'.lat = some la' ∧ q'.lng = some ln' ∧
        bd' = haversine_miles origin (la', ln') ∧
        select_min (to_candidates origin places) = some (candidate_of origin q' la' ln') := by
  intro places
  induction places with
  | nil =>
    rintro i0 ⟨p, hp, _⟩
    exact absurd hp (List.not_mem_nil p)
  | cons p ps ih =>
    rintro i0 hex
    cases hla : p.lat with
    | none =>
      have hex2 : ∃ r ∈ ps, r.lat ≠ none ∧ r.lng ≠ none := by
        obtain ⟨r, hr, hr1, hr2⟩ := hex
        rcases List.mem_cons.mp hr with rfl | hr3
        · exact absurd hla hr1
        · exact ⟨r, hr3, hr1, hr2⟩
      rw [show pick_scan origin none i0 (p :: ps) =
          pick_scan origin none (i0 + 1) ps from by simp [pick_scan, hla]]
      rw [to_candidates_cons_invalid origin p ps (Or.inl hla)]
      exact ih (i0 + 1) hex2
    | some la =>
      cases hln : p.lng with
      | none =>
        have hex2 : ∃ r ∈ ps, r.lat ≠ none ∧ r.lng ≠ none := by
          obtain ⟨r, hr, hr1, hr2⟩ := hex
          rcases List.mem_cons.mp hr with rfl | hr3
          · exact absurd hln hr2
          · exact ⟨r, hr3, hr1, hr2⟩
        rw [show pick_scan origin none i0 (p :: ps) =
            pick_scan origin none (i0 + 1) ps from by simp [pick_scan, hla, hln]]
        rw [to_candidates_cons_invalid origin p ps (Or.inr hln)]
        exact ih (i0 + 1) hex2
      | some ln =>
        rw [show pick_scan origin none i0 (p :: ps) =
            pick_scan origin (some (i0, p, haversine_miles origin (la, ln))) (i0 + 1) ps from by
          simp [pick_scan, hla, hln]]
        rw [to_candidates_cons_valid origin p ps la ln hla hln]
        obtain ⟨j', q', bd', la', ln', hpick, hq1, hq2, hq3, hmin⟩ :=
          sim_run origin ps (i0 + 1) i0 p (haversine_miles origin (la, ln))
            (candidate_of origin p la ln) ⟨la, ln, hla, hln, rfl, rfl⟩
        exact ⟨j', q', bd', la', ln', hpick, hq1, hq2, hq3, by
          rw [show select_min (candidate_of origin p la ln :: to_candidates origin ps) =
            some (min_scan (candidate_of origin p la ln) (to_candidates origin ps)) from rfl,
            hmin]⟩

/-- C10: on any record list with at least one coordinate-bearing
record, the two implementations agree: `pick_scan`/`pick_nearest_place`
(the `make_map.py` path) selects the record `p` at position `i` with
straight-line distance `d`, and `select_nearest` (the `nearest_store.py`
path, `min` over `to_candidates`) returns exactly the candidate built
from that same record with the same distance. -/
theorem C10_implementations_equivalent (origin : ℝ × ℝ) (places : List PlaceRecord)
    (hex : ∃ p ∈ places, p.lat ≠ none ∧ p.lng ≠ none) :
    ∃ i p d la ln,
      pick_scan origin none 0 places = some (i, p, d) ∧
      places.get? i = some p ∧
      p.lat = some la ∧ p.lng = some ln ∧
      d = haversine_miles origin (la, ln) ∧
      pick_nearest_place origin places =
        some (({ p with slm := some d }, d), places.set i { p with slm := some d }) ∧
      select_nearest origin places = some (candidate_of origin p la ln) ∧
      (candidate_of origin p la ln).straight_line_miles = d := by
  obtain ⟨j', q', bd', la', ln', hpick, hla, hln, hbd, hsel⟩ :=
    select_pick_equiv origin places 0 hex
  rcases pick_scan_get origin places none 0 j' q' bd' hpick with h1 | ⟨_, hget2, _⟩
  · exact Option.noConfusion h1
  · rw [Nat.sub_zero] at hget2
    refine ⟨j', q', bd', la', ln', hpick, hget2, hla, hln, hbd, ?_, hsel, hbd.symm⟩
    rw [pick_nearest_place, hpick]

/-- C10 witness: the equivalence theorem applied to the concrete
one-record list `[rec0]`. -/
theorem C10_implementations_equivalent_witness :
    (∃ p ∈ [rec0], p.lat ≠ none ∧ p.lng ≠ none) ∧
      ∃ i p d la ln,
        pick_scan ORIGIN none 0 [rec0] = some (i, p, d) ∧
        [rec0].get? i = some p ∧
        p.lat = some la ∧ p.lng = some ln ∧
        d = haversine_miles ORIGIN (la, ln) ∧
        pick_nearest_place ORIGIN [rec0] =
          some (({ p with slm := some d }, d), [rec0].set i { p with slm := some d }) ∧
        select_nearest ORIGIN [rec0] = some (candidate_of ORIGIN p la ln) ∧
        (candidate_of ORIGIN p la ln).straight_line_miles = d := by
  have hw : ∃ p ∈ [rec0], p.lat ≠ none ∧ p.lng ≠ none :=
    ⟨rec0, List.mem_singleton.mpr rfl, by simp [rec0], by simp [rec0]⟩
  exact ⟨hw, C10_implementations_equivalent ORIGIN [rec0] hw⟩

end VoeFood
